import Mathlib

/-!
Shallow embedding of the catalog-management backend:
the catalog store (`readCatalog`), the mutation engine (`createCategory`,
`deleteCategory`, `createProduct`, `deleteProduct`), the public query
(`getPublicCatalog`) and the cookie-session authentication
(`setBackofficeSessionCookie`, `isBackofficeAuthed`).

Strings are modelled by Lean `String` (a list of characters); JavaScript
string lengths are code-unit counts, which agree with character counts on
the basic-multilingual-plane inputs considered here.  Randomness
(`crypto.randomBytes`, `crypto.randomUUID`) is modelled by an explicit
`RandSupply` supply passed to each operation.  Each mutation operation returns
its result together with the list of `writeCatalog` calls it performed,
so "no write happened" is directly observable.
-/

/-! ### JavaScript string helpers -/

/-- JS `String.prototype.trim` / the `\s` class, modelled on the ASCII
whitespace characters `Char.isWhitespace` recognises. -/
def trimChars (cs : List Char) : List Char :=
  ((cs.dropWhile Char.isWhitespace).reverse.dropWhile Char.isWhitespace).reverse

/-- Collapse every run of whitespace to a single space
(JS `replace(/\s+/g, " ")`); the flag records whether the previous
character was part of a whitespace run. -/
def collapseWsAux : Bool → List Char → List Char
  | _, [] => []
  | prevWs, c :: rest =>
    if c.isWhitespace then
      if prevWs then collapseWsAux true rest
      else ' ' :: collapseWsAux true rest
    else c :: collapseWsAux false rest

/-- `normalizeName` from `mutate.ts`: trim, collapse internal whitespace. -/
def normalizeName (s : String) : String :=
  String.mk (collapseWsAux false (trimChars s.data))

/-- JS `String.prototype.toLowerCase`, modelled character-wise
(agrees with it on ASCII). -/
def jsToLower (s : String) : String :=
  String.mk (s.data.map Char.toLower)

/-- Characters kept by `slugify`: lowercase ASCII letters and digits. -/
def isSlugChar (c : Char) : Bool :=
  ('a' ≤ c && c ≤ 'z') || c.isDigit

/-- Replace every run of non-slug characters by a single hyphen
(JS `replace(/[^a-z0-9]+/g, "-")`). -/
def dashRuns : Bool → List Char → List Char
  | _, [] => []
  | prevDash, c :: rest =>
    if isSlugChar c then c :: dashRuns false rest
    else if prevDash then dashRuns true rest
    else '-' :: dashRuns true rest

/-- Strip leading and trailing hyphens (JS `replace(/^-+|-+$/g, "")`). -/
def trimDashes (cs : List Char) : List Char :=
  ((cs.dropWhile (fun c => c == '-')).reverse.dropWhile (fun c => c == '-')).reverse

/-- `slugify` from `mutate.ts`: trim, lowercase, strip quote characters,
collapse non-alphanumeric runs to single hyphens, strip edge hyphens. -/
def slugify (s : String) : String :=
  let lowered := (trimChars s.data).map Char.toLower
  let noQuotes := lowered.filter (fun c => !(c == '\'') && !(c == '"'))
  String.mk (trimDashes (dashRuns false noQuotes))

/-! ### Catalog data model (`types.ts`) -/

/-- A catalog category. -/
structure Category where
  id : String
  name : String
  createdAt : String
deriving Repr, DecidableEq

/-- A catalog product.  `badgeVariant` is carried as a raw string (the
TypeScript value is a cast of arbitrary form input) and validated by
`createProduct`. -/
structure Product where
  id : String
  categoryId : String
  name : String
  description : String
  priceLabel : String
  imageUrl : String
  imageAlt : String
  badgeText : Option String
  badgeVariant : Option String
  createdAt : String
deriving Repr, DecidableEq

/-- The persisted catalog document. -/
structure CatalogData where
  version : Int
  updatedAt : String
  categories : List Category
  products : List Product
deriving Repr, DecidableEq

/-- Explicit supply for the randomness consumed by id generation:
`suffixes i` is the 2-byte hex string produced by `crypto.randomBytes(2)`
on loop iteration `i`, `baseUuid` the `crypto.randomUUID()` used when the
slug is empty, `fallbackUuid` the one used when all retries collide. -/
structure RandSupply where
  suffixes : Nat → String
  baseUuid : String
  fallbackUuid : String

/-! ### Id generation (`mutate.ts`, `uniqueId`) -/

/-- The retry loop of `uniqueId`: try up to `remaining` suffixed
candidates `base-<suffix>`, returning the first one not in `used`. -/
def findFreeSuffix (base : String) (used : List String) (sufs : Nat → String) :
    Nat → Nat → Option String
  | _, 0 => none
  | i, r + 1 =>
    let cand := base ++ "-" ++ sufs i
    if cand ∈ used then findFreeSuffix base used sufs (i + 1) r else some cand

/-- `uniqueId` from `mutate.ts`: return `base` if free, otherwise up to 10
random-suffixed candidates, otherwise a random UUID (not re-checked). -/
def uniqueId (base : String) (used : List String) (rnd : RandSupply) : String :=
  if base ∈ used then
    match findFreeSuffix base used rnd.suffixes 0 10 with
    | some cand => cand
    | none => rnd.fallbackUuid
  else base

/-! ### Mutation engine (`mutate.ts`)

Each operation takes the catalog read by its `readCatalog()` call, the
current timestamp and the randomness supply, and returns the thrown-or-
returned outcome paired with the list of `writeCatalog` calls it made. -/

/-- `createCategory` from `mutate.ts`. -/
def createCategory (nameRaw : String) (catalog : CatalogData) (rnd : RandSupply)
    (now : String) : Except String Category × List CatalogData :=
  let name := normalizeName nameRaw
  if name = "" then (Except.error "Category name is required.", [])
  else if name.length > 60 then
    (Except.error "Category name is too long (max 60 chars).", [])
  else if catalog.categories.any (fun c => jsToLower c.name == jsToLower name) then
    (Except.error "Category already exists.", [])
  else
    let usedIds := catalog.categories.map Category.id
    let baseId := if slugify name = "" then rnd.baseUuid else slugify name
    let id := uniqueId baseId usedIds rnd
    let category : Category := { id := id, name := name, createdAt := now }
    let next : CatalogData :=
      { catalog with
        updatedAt := now
        categories := catalog.categories ++ [category] }
    (Except.ok category, [next])

/-- `deleteCategory` from `mutate.ts`. -/
def deleteCategory (categoryId : String) (catalog : CatalogData)
    (now : String) : Except String Unit × List CatalogData :=
  let nextCategories := catalog.categories.filter (fun c => c.id != categoryId)
  if nextCategories.length = catalog.categories.length then (Except.ok (), [])
  else
    let nextProducts := catalog.products.filter (fun p => p.categoryId != categoryId)
    let next : CatalogData :=
      { catalog with
        updatedAt := now
        categories := nextCategories
        products := nextProducts }
    (Except.ok (), [next])

/-- Input of `createProduct` (`CreateProductInput` in `mutate.ts`). -/
structure CreateProductInput where
  categoryId : String
  name : String
  description : String
  priceLabel : String
  imageUrl : String
  imageAlt : String
  badgeText : Option String
  badgeVariant : Option String
deriving Repr, DecidableEq

/-- JS `String.prototype.trim` on a `String`. -/
def trimStr (s : String) : String := String.mk (trimChars s.data)

/-- Models the scheme extraction performed by the WHATWG `new URL`
parser: a URL string must begin with a scheme
(`[a-zA-Z][a-zA-Z0-9+.-]*`) followed by `:`; parsing fails otherwise.
`URL.protocol` is the lowercased scheme with a trailing colon.  Host
syntax is not modelled; the claims only distinguish scheme presence and
value. -/
def schemeSplit : List Char → List Char → Option (List Char)
  | acc, c :: rest =>
    if c = ':' then some acc.reverse
    else if c.isAlphanum || c == '+' || c == '-' || c == '.' then
      schemeSplit (c :: acc) rest
    else none
  | _, [] => none

/-- `URL.protocol` of `new URL(s)`, or `none` when `new URL` throws.
See `schemeSplit`. -/
def urlProtocol (s : String) : Option String :=
  match s.data with
  | [] => none
  | c :: _ =>
    if c.isAlpha then
      match schemeSplit [] s.data with
      | some scheme => some (String.mk (scheme.map Char.toLower ++ [':']))
      | none => none
    else none

/-- `createProduct` from `mutate.ts`. -/
def createProduct (input : CreateProductInput) (catalog : CatalogData)
    (rnd : RandSupply) (now : String) : Except String Product × List CatalogData :=
  let categoryId := trimStr input.categoryId
  let name := normalizeName input.name
  let description := trimStr input.description
  let priceLabel := trimStr input.priceLabel
  let imageUrl := trimStr input.imageUrl
  let imageAlt := if trimStr input.imageAlt = "" then name else trimStr input.imageAlt
  let badgeText :=
    match input.badgeText with
    | some t => if trimStr t = "" then none else some (trimStr t)
    | none => none
  let badgeVariant := input.badgeVariant
  if categoryId = "" then (Except.error "Category is required.", [])
  else if name = "" then (Except.error "Product name is required.", [])
  else if name.length > 80 then
    (Except.error "Product name is too long (max 80 chars).", [])
  else if description = "" then (Except.error "Product description is required.", [])
  else if description.length > 200 then
    (Except.error "Product description is too long (max 200 chars).", [])
  else if priceLabel = "" then (Except.error "Price is required.", [])
  else if priceLabel.length > 20 then (Except.error "Price is too long.", [])
  else if imageUrl = "" then (Except.error "Image URL is required.", [])
  else if imageUrl.length > 2000 then (Except.error "Image URL is too long.", [])
  else
    match urlProtocol imageUrl with
    | none => (Except.error "Image URL is invalid.", [])
    | some protocol =>
      if protocol ≠ "https:" then (Except.error "Image URL must be https.", [])
      else if (match badgeVariant with
               | some v => v ≠ "default" && v ≠ "hot"
               | none => false) then
        (Except.error "Badge variant is invalid.", [])
      else if !(catalog.categories.any (fun c => c.id == categoryId)) then
        (Except.error "Category does not exist.", [])
      else
        let usedIds := catalog.products.map Product.id
        let baseId := if slugify name = "" then rnd.baseUuid else slugify name
        let id := uniqueId baseId usedIds rnd
        let product : Product :=
          { id := id, categoryId := categoryId, name := name
            description := description, priceLabel := priceLabel
            imageUrl := imageUrl, imageAlt := imageAlt
            badgeText := badgeText, badgeVariant := badgeVariant
            createdAt := now }
        let next : CatalogData :=
          { catalog with
            updatedAt := now
            products := catalog.products ++ [product] }
        (Except.ok product, [next])

/-- `deleteProduct` from `mutate.ts`. -/
def deleteProduct (productId : String) (catalog : CatalogData)
    (now : String) : Except String Unit × List CatalogData :=
  let nextProducts := catalog.products.filter (fun p => p.id != productId)
  if nextProducts.length = catalog.products.length then (Except.ok (), [])
  else
    let next : CatalogData :=
      { catalog with updatedAt := now, products := nextProducts }
    (Except.ok (), [next])

/-! ### Catalog store (`store.ts`) -/

/-- A JSON value, as produced by `JSON.parse`. -/
inductive Json where
  | null
  | bool (b : Bool)
  | num (n : Int)
  | str (s : String)
  | arr (elems : List Json)
  | obj (fields : List (String × Json))

/-- Object field lookup; with duplicate keys `JSON.parse` keeps the last
occurrence, so the last binding wins. -/
def jLookup (fields : List (String × Json)) (key : String) : Option Json :=
  match fields with
  | [] => none
  | (k, v) :: rest =>
    match jLookup rest key with
    | some w => some w
    | none => if k = key then some v else none

/-- `parsed?.version !== 1` from `readCatalog`, negated: the parsed value
is an object whose `version` field is the number 1. -/
def jsonVersionIs1 (v : Json) : Bool :=
  match v with
  | .obj fields =>
    match jLookup fields "version" with
    | some (.num n) => n == 1
    | _ => false
  | _ => false

/-- `Array.isArray(parsed.<key>)` for an already object-checked value. -/
def jsonFieldIsArray (v : Json) (key : String) : Bool :=
  match v with
  | .obj fields =>
    match jLookup fields key with
    | some (.arr _) => true
    | _ => false
  | _ => false

/-- The shape test of `readCatalog`:
`parsed?.version === 1 && Array.isArray(parsed.categories) &&
Array.isArray(parsed.products)`. -/
def catalogShapeOk (v : Json) : Bool :=
  jsonVersionIs1 v && jsonFieldIsArray v "categories" && jsonFieldIsArray v "products"

/-- `defaultCatalog` from `store.ts`, as the JSON document it denotes. -/
def defaultCatalogJson (nowIso : String) : Json :=
  Json.obj
    [("version", Json.num 1), ("updatedAt", Json.str nowIso),
     ("categories", Json.arr []), ("products", Json.arr [])]

/-- Outcome of the `fs.readFile` + `JSON.parse` step of `readCatalog`:
the file is absent (`ENOENT`), reading fails with another I/O error, the
bytes are not valid JSON (`JSON.parse` throws a `SyntaxError`, which has
no `code` field), or a JSON value is obtained. -/
inductive ReadOutcome where
  | enoent
  | ioError (msg : String)
  | parseError (msg : String)
  | doc (v : Json)

/-- `readCatalog` from `store.ts`: `ENOENT` and shape failures yield the
fresh default document; a `SyntaxError` from `JSON.parse` carries no
`code === "ENOENT"` and is rethrown, as is any other I/O error. -/
def readCatalog (o : ReadOutcome) (nowIso : String) : Except String Json :=
  match o with
  | .enoent => Except.ok (defaultCatalogJson nowIso)
  | .ioError m => Except.error m
  | .parseError m => Except.error m
  | .doc v =>
    if catalogShapeOk v then Except.ok v
    else Except.ok (defaultCatalogJson nowIso)

/-! ### Public query (`read.ts`, `getPublicCatalog`) -/

/-- Codepoint-lexicographic "less or equal" on character lists; this
models `String.prototype.localeCompare`'s "does not sort after"
outcome, with which it agrees on the ASCII data considered here. -/
def charsLe : List Char → List Char → Bool
  | [], _ => true
  | _ :: _, [] => false
  | a :: as, b :: bs =>
    if a.toNat < b.toNat then true
    else if b.toNat < a.toNat then false
    else charsLe as bs

/-- `a.localeCompare(b) <= 0`, modelled codepoint-lexicographically. -/
def strLe (a b : String) : Bool := charsLe a.data b.data

/-- The comparator `(a, b) => a.name.localeCompare(b.name)` interpreted
as a "sorts before or equal" relation. -/
def catNameLe (a b : Category) : Prop := strLe a.name b.name = true

instance : DecidableRel catNameLe :=
  fun a b => inferInstanceAs (Decidable (strLe a.name b.name = true))

/-- The comparator `(a, b) => b.createdAt.localeCompare(a.createdAt)`
(creation time descending), with `localeCompare` modelled as for
`catNameLe`. -/
def prodCreatedGe (a b : Product) : Prop := strLe b.createdAt a.createdAt = true

instance : DecidableRel prodCreatedGe :=
  fun a b => inferInstanceAs (Decidable (strLe b.createdAt a.createdAt = true))

/-- `getPublicCatalog` from `read.ts`, applied to the document returned
by its `readCatalog()` call.  JS `Array.prototype.sort` is a stable sort,
modelled by insertion sort.  The second component is the list of
`writeCatalog` calls performed (none: the query is read-only). -/
def getPublicCatalog (catalog : CatalogData) :
    (List Category × List Product) × List CatalogData :=
  let categories := List.insertionSort catNameLe catalog.categories
  let categoryIds := categories.map Category.id
  let products :=
    List.insertionSort prodCreatedGe
      (catalog.products.filter (fun p => p.categoryId ∈ categoryIds))
  ((categories, products), [])

/-! ### Session authentication (`auth.ts`)

`crypto.createHmac("sha256", key)` is an external primitive; it is
modelled as an abstract function `AuthEnv.hmac : key → data → digest
bytes`.  The base64url codec (`Buffer.toString("base64url")` /
`Buffer.from(_, "base64url")`) and the decimal rendering inside
`JSON.stringify({exp})` are modelled concretely below. -/

/-- The decimal digit character for `n < 10`. -/
def digitChar (n : Nat) : Char := Char.ofNat (48 + n)

/-- Decimal rendering of a natural number, most significant digit first
(the integer case of JS number-to-string).  Structural recursion on a
fuel argument kept strictly above `n`. -/
def natToCharsFuel (fuel : Nat) (n : Nat) (acc : List Char) : List Char :=
  match fuel with
  | 0 => acc
  | fuel' + 1 =>
    if n < 10 then digitChar n :: acc
    else natToCharsFuel fuel' (n / 10) (digitChar (n % 10) :: acc)

/-- Decimal rendering of a natural number. -/
def natToChars (n : Nat) : List Char := natToCharsFuel (n + 1) n []

/-- Left-to-right decimal accumulator parse; fails on a non-digit. -/
def parseNatAux : List Char → Nat → Option Nat
  | [], acc => some acc
  | c :: rest, acc =>
    if c.isDigit then parseNatAux rest (acc * 10 + (c.toNat - 48)) else none

/-- Parse a nonempty all-digit character list as a natural number. -/
def parseNatDigits (cs : List Char) : Option Nat :=
  match cs with
  | [] => none
  | _ :: _ => parseNatAux cs 0

/-- The base64url alphabet (RFC 4648 §5). -/
def b64Alphabet : List Char :=
  "ABCDEFGHIJKLMNOPQRSTUVWXYZabcdefghijklmnopqrstuvwxyz0123456789-_".data

/-- The base64url character for a sextet. -/
def b64Char (n : Nat) : Char := b64Alphabet.getD n 'A'

/-- The sextet of a base64url character, `none` outside the alphabet. -/
def b64Index (c : Char) : Option Nat := b64Alphabet.findIdx? (fun d => d == c)

/-- Unpadded base64url encoding of a byte list
(`Buffer.toString("base64url")`). -/
def b64EncodeChunks : List Nat → List Char
  | b1 :: b2 :: b3 :: rest =>
    let n := b1 * 65536 + b2 * 256 + b3
    b64Char (n / 262144) :: b64Char (n / 4096 % 64) :: b64Char (n / 64 % 64) ::
      b64Char (n % 64) :: b64EncodeChunks rest
  | [b1, b2] =>
    let n := b1 * 1024 + b2 * 4
    [b64Char (n / 4096), b64Char (n / 64 % 64), b64Char (n % 64)]
  | [b1] =>
    let n := b1 * 16
    [b64Char (n / 64), b64Char (n % 64)]
  | [] => []

/-- Unpadded base64url decoding (`Buffer.from(_, "base64url")`), strict:
characters outside the alphabet (and an impossible leftover length of 1)
fail, which `isBackofficeAuthed` treats like its `catch` branch. -/
def b64DecodeChunks : List Char → Option (List Nat)
  | [] => some []
  | [c1, c2] => do
    let a ← b64Index c1
    let b ← b64Index c2
    some [(a * 64 + b) / 16]
  | [c1, c2, c3] => do
    let a ← b64Index c1
    let b ← b64Index c2
    let c ← b64Index c3
    let m := a * 4096 + b * 64 + c
    some [m / 1024, m / 4 % 256]
  | c1 :: c2 :: c3 :: c4 :: rest => do
    let a ← b64Index c1
    let b ← b64Index c2
    let c ← b64Index c3
    let d ← b64Index c4
    let m := a * 262144 + b * 4096 + c * 64 + d
    let tail ← b64DecodeChunks rest
    some ([m / 65536, m / 256 % 256, m % 256] ++ tail)
  | [_] => none

/-- The characters of `JSON.stringify({exp})` for an integer `exp`. -/
def payloadChars (exp : Nat) : List Char :=
  "\x7b\"exp\":".data ++ natToChars exp ++ ['\x7d']

/-- `encodePayload` from `auth.ts`: base64url over the UTF-8 bytes of the
JSON payload (the payload is ASCII, so its UTF-8 bytes are its character
codes). -/
def encodePayload (exp : Nat) : List Char :=
  b64EncodeChunks ((payloadChars exp).map Char.toNat)

/-- Remove the expected leading characters, or fail. -/
def dropLead : List Char → List Char → Option (List Char)
  | [], cs => some cs
  | _ :: _, [] => none
  | p :: ps, c :: cs => if c = p then dropLead ps cs else none

/-- `JSON.parse` followed by the `typeof parsed.exp === "number"` check
of `decodePayload`, restricted to the payload grammar
`\x7b"exp":<digits>\x7d`; anything else is rejected, as the original
rejects it via the `catch`/shape branches. -/
def parsePayload (cs : List Char) : Option Nat :=
  match dropLead "\x7b\"exp\":".data cs with
  | none => none
  | some rest =>
    match rest.getLast? with
    | some c => if c = '\x7d' then parseNatDigits rest.dropLast else none
    | none => none

/-- Bytes back to characters (`Buffer.toString("utf8")` on ASCII). -/
def bytesToChars (bs : List Nat) : List Char := bs.map Char.ofNat

/-- `decodePayload` from `auth.ts`. -/
def decodePayload (dataB64 : List Char) : Option Nat :=
  match b64DecodeChunks dataB64 with
  | none => none
  | some bytes => parsePayload (bytesToChars bytes)

/-- JS `value.split(".")`. -/
def splitDot : List Char → List (List Char)
  | [] => [[]]
  | c :: rest =>
    if c = '.' then [] :: splitDot rest
    else
      match splitDot rest with
      | [] => [[c]]
      | p :: ps => (c :: p) :: ps

/-- `SESSION_TTL_MS` from `auth.ts`: 30 days in milliseconds. -/
def SESSION_TTL_MS : Nat := 1000 * 60 * 60 * 24 * 30

/-- The authentication environment: the signing secret returned by
`sessionSecret()` and the abstract `HMAC-SHA256(key, data)` digest
function. -/
structure AuthEnv where
  secret : List Char
  hmac : List Char → List Char → List Nat

/-- The cookie value `${data}.${sig}` signed for a given expiry. -/
def signedCookieValue (env : AuthEnv) (exp : Nat) : List Char :=
  let data := encodePayload exp
  let sig := b64EncodeChunks (env.hmac env.secret data)
  data ++ '.' :: sig

/-- `setBackofficeSessionCookie` from `auth.ts`: the cookie value it
stores, with `exp = Date.now() + SESSION_TTL_MS`. -/
def setBackofficeSessionCookie (env : AuthEnv) (nowMs : Nat) : List Char :=
  signedCookieValue env (nowMs + SESSION_TTL_MS)

/-- `isBackofficeAuthed` from `auth.ts`, applied to the cookie value (if
any) and the current time.  `timingSafeEqual` (length check plus
constant-time byte comparison) is byte-list equality. -/
def isBackofficeAuthed (env : AuthEnv) (cookie : Option (List Char))
    (nowMs : Nat) : Bool :=
  match cookie with
  | none => false
  | some value =>
    if value.isEmpty then false
    else
      match splitDot value with
      | [data, sigB64] =>
        let expectedSig := env.hmac env.secret data
        match b64DecodeChunks sigB64 with
        | none => false
        | some actualSig =>
          if actualSig ≠ expectedSig then false
          else
            match decodePayload data with
            | none => false
            | some exp => if exp ≤ nowMs then false else true
      | _ => false

/-! ### Concrete fixtures used to instantiate the theorems below -/

/-- A fixed randomness supply. -/
def rndFix : RandSupply := ⟨fun _ => "ab", "base-uuid-1", "fallback-uuid-1"⟩

/-- A randomness supply whose ten suffixes and fallback UUID all collide
with existing ids. -/
def rndClash : RandSupply := ⟨fun _ => "aa", "bu", "x"⟩

/-- A catalog occupying both the slug `x` and the suffixed `x-aa`. -/
def catClash : CatalogData :=
  ⟨1, "t0", [⟨"x", "Ex", "t0"⟩, ⟨"x-aa", "Wy", "t0"⟩], []⟩

/-- A 61-character category name. -/
def name61 : String := String.mk (List.replicate 61 'a')

/-- A catalog whose stored category name is 61 characters long. -/
def catLong : CatalogData := ⟨1, "t0", [⟨"long", name61, "t0"⟩], []⟩

/-- A catalog holding the category created from `"Green Tea"`. -/
def catGT : CatalogData := ⟨1, "t0", [⟨"green-tea", "Green Tea", "t0"⟩], []⟩

/-- The document written when `"Oolong"` is added to `catGT`. -/
def catGTnext : CatalogData :=
  ⟨1, "t1", [⟨"green-tea", "Green Tea", "t0"⟩, ⟨"oolong", "Oolong", "t1"⟩], []⟩

/-- An 80-character product name. -/
def name80 : String := String.mk (List.replicate 80 'a')

/-- A 201-character product name. -/
def name201 : String := String.mk (List.replicate 201 'a')

/-- A catalog holding one category with id `c1`. -/
def catC1 : CatalogData := ⟨1, "t0", [⟨"c1", "Cat", "t0"⟩], []⟩

/-- A product input that passes every validation rule: 80-character name,
https image URL. -/
def inputOk80 : CreateProductInput :=
  ⟨"c1", name80, "desc", "9", "https://example.com/a.png", "alt", none, none⟩

/-- `inputOk80` with a non-https image URL. -/
def inputHttp : CreateProductInput :=
  ⟨"c1", "Tea", "desc", "9", "http://example.com/a.png", "alt", none, none⟩

/-- A product input violating several rules at once (missing category,
missing name, non-https URL). -/
def inputMulti : CreateProductInput :=
  ⟨"", "", "desc", "9", "http://example.com/a.png", "alt", none, none⟩

/-- The product created from `inputOk80` on `catC1`. -/
def prodOk80 : Product :=
  ⟨name80, "c1", name80, "desc", "9", "https://example.com/a.png", "alt",
   none, none, "t9"⟩

/-- A catalog with unsorted categories, two products of different
creation times and one orphaned product. -/
def catSort : CatalogData :=
  ⟨1, "t0", [⟨"b", "Beta", "t0"⟩, ⟨"a", "Alpha", "t0"⟩],
   [⟨"p1", "a", "P", "d", "1", "u", "al", none, none, "2020"⟩,
    ⟨"p2", "a", "Q", "d", "1", "u", "al", none, none, "2021"⟩,
    ⟨"orph", "zz", "R", "d", "1", "u", "al", none, none, "2022"⟩]⟩

/-- A fixed authentication environment whose abstract HMAC hashes to the
message length (enough to distinguish messages of different lengths). -/
def envFix : AuthEnv := ⟨"secret".data, fun k d => [(k.length + d.length) % 256]⟩

/-- A shape-invalid persisted document (`version` is 2). -/
def badVersionDoc : Json := Json.obj [("version", Json.num 2)]

/-! ### Helper lemmas -/

/-- Any value the retry loop returns avoids `used`. -/
theorem findFreeSuffix_not_mem (base : String) (used : List String)
    (sufs : Nat → String) :
    ∀ i r cand, findFreeSuffix base used sufs i r = some cand → cand ∉ used := by
  intro i r
  induction r generalizing i with
  | zero => intro cand h; simp [findFreeSuffix] at h
  | succ r ih =>
    intro cand h
    rw [findFreeSuffix] at h
    by_cases hmem : (base ++ "-" ++ sufs i) ∈ used
    · simp only [hmem, if_pos] at h
      exact ih (i + 1) cand h
    · simp only [hmem, if_neg, not_false_iff] at h
      simp only [Option.some.injEq] at h
      subst h
      exact hmem

/-- `uniqueId` avoids `used` whenever the fallback UUID does. -/
theorem uniqueId_not_mem (base : String) (used : List String) (rnd : RandSupply)
    (h : rnd.fallbackUuid ∉ used) : uniqueId base used rnd ∉ used := by
  rw [uniqueId]
  by_cases hb : base ∈ used
  · simp only [hb, if_pos]
    cases hfind : findFreeSuffix base used rnd.suffixes 0 10 with
    | none => exact h
    | some cand => exact findFreeSuffix_not_mem base used rnd.suffixes 0 10 cand hfind
  · simp [hb]

/-! ### C1.  `readCatalog` self-healing -/

/-- C1 (counterexample): the claim says a persisted document whose bytes
are not valid JSON yields a fresh empty catalog; in the code the
`SyntaxError` thrown by `JSON.parse` has no `code === "ENOENT"` and is
rethrown, so `readCatalog` errors instead. -/
theorem readCatalog_parseError_cex :
    readCatalog (ReadOutcome.parseError "SyntaxError: Unexpected token")
        "2026-01-01T00:00:00.000Z" ≠
      Except.ok (defaultCatalogJson "2026-01-01T00:00:00.000Z") :=
  fun h => Except.noConfusion h

/-- C1 (amended): an absent document and a shape-invalid document
(version ≠ 1 or non-array categories/products, top-level non-objects
included) yield the fresh empty catalog; a `JSON.parse` failure and any
other I/O failure propagate as errors. -/
theorem readCatalog_self_healing (now m : String) (v : Json)
    (hv : catalogShapeOk v = false) :
    readCatalog ReadOutcome.enoent now = Except.ok (defaultCatalogJson now) ∧
    readCatalog (ReadOutcome.doc v) now = Except.ok (defaultCatalogJson now) ∧
    readCatalog (ReadOutcome.ioError m) now = Except.error m ∧
    readCatalog (ReadOutcome.parseError m) now = Except.error m := by
  refine ⟨rfl, ?_, rfl, rfl⟩
  simp [readCatalog, hv]

/-- C1 witness: the amended theorem at `version = 2`. -/
theorem readCatalog_self_healing_witness :
    readCatalog (ReadOutcome.doc badVersionDoc) "t" =
      Except.ok (defaultCatalogJson "t") :=
  (readCatalog_self_healing "t" "io" badVersionDoc (by decide)).2.1

/-! ### C2.  `deleteCategory` cascade -/

/-- C2: deleting a present category id removes exactly that category and
exactly the products referencing it, keeps everything else and the
version, bumps `updatedAt`, and performs the change in one single
document write. -/
theorem deleteCategory_cascade (categoryId : String) (catalog : CatalogData)
    (now : String) (hmem : categoryId ∈ catalog.categories.map Category.id) :
    ∃ next, deleteCategory categoryId catalog now = (Except.ok (), [next]) ∧
      next.version = catalog.version ∧ next.updatedAt = now ∧
      (∀ c, c ∈ next.categories ↔ c ∈ catalog.categories ∧ c.id ≠ categoryId) ∧
      (∀ p, p ∈ next.products ↔ p ∈ catalog.products ∧ p.categoryId ≠ categoryId) := by
  obtain ⟨c₀, hc₀, hid⟩ := List.mem_map.mp hmem
  have hlt : (catalog.categories.filter (fun c => c.id != categoryId)).length <
      catalog.categories.length := by
    refine List.length_filter_lt_length_iff_exists.mpr ⟨c₀, hc₀, ?_⟩
    simp [hid]
  rw [deleteCategory]
  simp only [Nat.ne_of_lt hlt, if_false]
  refine ⟨_, rfl, rfl, rfl, ?_, ?_⟩ <;> intro x <;> simp [List.mem_filter]

/-- C2 witness: deleting `green-tea` from a two-category catalog. -/
theorem deleteCategory_cascade_witness :
    ∃ next, deleteCategory "green-tea" catGT "t2" = (Except.ok (), [next]) :=
  match deleteCategory_cascade "green-tea" catGT "t2" (by decide) with
  | ⟨next, h, _⟩ => ⟨next, h⟩

/-! ### C6.  Idempotent delete -/

/-- C6: deleting an absent category id and an absent product id both
return successfully, perform no write, and leave the persisted document
untouched. -/
theorem delete_missing_noop (cid pid : String) (catalog : CatalogData)
    (now : String) (hc : cid ∉ catalog.categories.map Category.id)
    (hp : pid ∉ catalog.products.map Product.id) :
    deleteCategory cid catalog now = (Except.ok (), []) ∧
    deleteProduct pid catalog now = (Except.ok (), []) := by
  constructor
  · have : catalog.categories.filter (fun c => c.id != cid) = catalog.categories := by
      refine List.filter_eq_self.mpr ?_
      intro c hcmem
      simp only [bne_iff_ne, ne_eq]
      exact fun h => hc (List.mem_map.mpr ⟨c, hcmem, h⟩)
    rw [deleteCategory]
    simp [this]
  · have : catalog.products.filter (fun p => p.id != pid) = catalog.products := by
      refine List.filter_eq_self.mpr ?_
      intro p hpmem
      simp only [bne_iff_ne, ne_eq]
      exact fun h => hp (List.mem_map.mpr ⟨p, hpmem, h⟩)
    rw [deleteProduct]
    simp [this]

/-- C6 witness: missing ids on a nonempty catalog. -/
theorem delete_missing_noop_witness :
    deleteCategory "nope" catGT "t2" = (Except.ok (), []) :=
  (delete_missing_noop "nope" "nada" catGT "t2" (by decide) (by decide)).1

/-! ### C7.  Case-insensitive name conflict -/

/-- C7 (counterexample): the conflict check runs after the emptiness and
length checks, so a catalog already containing a 61-character name makes
`createCategory` of that same name fail with the length error, not with
the `ConflictError` message the claim requires. -/
theorem createCategory_conflict_order_cex :
    (∃ c ∈ catLong.categories, jsToLower c.name = jsToLower (normalizeName name61)) ∧
    (createCategory name61 catLong rndFix "t1").1 =
      Except.error "Category name is too long (max 60 chars)." := by
  constructor
  · exact ⟨⟨"long", name61, "t0"⟩, by decide, by decide⟩
  · rfl

/-- C7 (amended): whenever the normalized new name is nonempty, at most
60 characters, and equals the name of a stored category
case-insensitively, `createCategory` fails with the conflict error
`"Category already exists."` and performs no write. -/
theorem createCategory_conflict (nameRaw : String) (catalog : CatalogData)
    (rnd : RandSupply) (now : String)
    (hne : normalizeName nameRaw ≠ "")
    (hlen : (normalizeName nameRaw).length ≤ 60)
    (hex : ∃ c ∈ catalog.categories,
      jsToLower c.name = jsToLower (normalizeName nameRaw)) :
    createCategory nameRaw catalog rnd now =
      (Except.error "Category already exists.", []) := by
  obtain ⟨c₀, hc₀, heq⟩ := hex
  rw [createCategory]
  rw [if_neg hne, if_neg (Nat.not_lt.mpr hlen), if_pos]
  exact List.any_eq_true.mpr ⟨c₀, hc₀, by simp [heq]⟩

/-- C7 witness: creating `"Green Tea"` then `"green tea"` — the second
call fails with the conflict error. -/
theorem createCategory_conflict_witness :
    createCategory "green tea" catGT rndFix "t2" =
      (Except.error "Category already exists.", []) :=
  createCategory_conflict "green tea" catGT rndFix "t2" (by decide) (by decide)
    ⟨⟨"green-tea", "Green Tea", "t0"⟩, by decide, by decide⟩

/-- Case analysis of `createCategory`: it either fails with a single
message and no write, or appends the freshly generated category in one
write. -/
theorem createCategory_main (nameRaw : String) (catalog : CatalogData)
    (rnd : RandSupply) (now : String) :
    (∃ m, createCategory nameRaw catalog rnd now = (Except.error m, [])) ∨
    (∃ c next, createCategory nameRaw catalog rnd now = (Except.ok c, [next]) ∧
      c.id = uniqueId
        (if slugify (normalizeName nameRaw) = "" then rnd.baseUuid
         else slugify (normalizeName nameRaw))
        (catalog.categories.map Category.id) rnd ∧
      next.categories = catalog.categories ++ [c]) := by
  simp only [createCategory]
  by_cases c1 : normalizeName nameRaw = ""
  · rw [if_pos c1]; exact Or.inl ⟨_, rfl⟩
  rw [if_neg c1]
  by_cases c2 : (normalizeName nameRaw).length > 60
  · rw [if_pos c2]; exact Or.inl ⟨_, rfl⟩
  rw [if_neg c2]
  by_cases c3 : (catalog.categories.any fun c =>
      jsToLower c.name == jsToLower (normalizeName nameRaw)) = true
  · rw [if_pos c3]; exact Or.inl ⟨_, rfl⟩
  rw [if_neg c3]
  exact Or.inr ⟨_, _, rfl, rfl, rfl⟩

/-- Case analysis of `createProduct`: it either fails with a single
message and no write, or appends the freshly generated product in one
write; success implies the https scheme and the name-length bound. -/
theorem createProduct_main (input : CreateProductInput) (catalog : CatalogData)
    (rnd : RandSupply) (now : String) :
    (∃ m, createProduct input catalog rnd now = (Except.error m, [])) ∨
    (∃ p next, createProduct input catalog rnd now = (Except.ok p, [next]) ∧
      urlProtocol (trimStr input.imageUrl) = some "https:" ∧
      (normalizeName input.name).length ≤ 80 ∧
      p.id = uniqueId
        (if slugify (normalizeName input.name) = "" then rnd.baseUuid
         else slugify (normalizeName input.name))
        (catalog.products.map Product.id) rnd ∧
      next.products = catalog.products ++ [p]) := by
  cases hu : urlProtocol (trimStr input.imageUrl) with
  | none =>
    simp only [createProduct, hu]
    by_cases c1 : trimStr input.categoryId = ""
    · rw [if_pos c1]; exact Or.inl ⟨_, rfl⟩
    rw [if_neg c1]
    by_cases c2 : normalizeName input.name = ""
    · rw [if_pos c2]; exact Or.inl ⟨_, rfl⟩
    rw [if_neg c2]
    by_cases c3 : (normalizeName input.name).length > 80
    · rw [if_pos c3]; exact Or.inl ⟨_, rfl⟩
    rw [if_neg c3]
    by_cases c4 : trimStr input.description = ""
    · rw [if_pos c4]; exact Or.inl ⟨_, rfl⟩
    rw [if_neg c4]
    by_cases c5 : (trimStr input.description).length > 200
    · rw [if_pos c5]; exact Or.inl ⟨_, rfl⟩
    rw [if_neg c5]
    by_cases c6 : trimStr input.priceLabel = ""
    · rw [if_pos c6]; exact Or.inl ⟨_, rfl⟩
    rw [if_neg c6]
    by_cases c7 : (trimStr input.priceLabel).length > 20
    · rw [if_pos c7]; exact Or.inl ⟨_, rfl⟩
    rw [if_neg c7]
    by_cases c8 : trimStr input.imageUrl = ""
    · rw [if_pos c8]; exact Or.inl ⟨_, rfl⟩
    rw [if_neg c8]
    by_cases c9 : (trimStr input.imageUrl).length > 2000
    · rw [if_pos c9]; exact Or.inl ⟨_, rfl⟩
    rw [if_neg c9]
    exact Or.inl ⟨_, rfl⟩
  | some protocol =>
    simp only [createProduct, hu]
    by_cases c1 : trimStr input.categoryId = ""
    · rw [if_pos c1]; exact Or.inl ⟨_, rfl⟩
    rw [if_neg c1]
    by_cases c2 : normalizeName input.name = ""
    · rw [if_pos c2]; exact Or.inl ⟨_, rfl⟩
    rw [if_neg c2]
    by_cases c3 : (normalizeName input.name).length > 80
    · rw [if_pos c3]; exact Or.inl ⟨_, rfl⟩
    rw [if_neg c3]
    by_cases c4 : trimStr input.description = ""
    · rw [if_pos c4]; exact Or.inl ⟨_, rfl⟩
    rw [if_neg c4]
    by_cases c5 : (trimStr input.description).length > 200
    · rw [if_pos c5]; exact Or.inl ⟨_, rfl⟩
    rw [if_neg c5]
    by_cases c6 : trimStr input.priceLabel = ""
    · rw [if_pos c6]; exact Or.inl ⟨_, rfl⟩
    rw [if_neg c6]
    by_cases c7 : (trimStr input.priceLabel).length > 20
    · rw [if_pos c7]; exact Or.inl ⟨_, rfl⟩
    rw [if_neg c7]
    by_cases c8 : trimStr input.imageUrl = ""
    · rw [if_pos c8]; exact Or.inl ⟨_, rfl⟩
    rw [if_neg c8]
    by_cases c9 : (trimStr input.imageUrl).length > 2000
    · rw [if_pos c9]; exact Or.inl ⟨_, rfl⟩
    rw [if_neg c9]
    by_cases c10 : protocol ≠ "https:"
    · rw [if_pos c10]; exact Or.inl ⟨_, rfl⟩
    rw [if_neg c10]
    by_cases c11 : (match input.badgeVariant with
      | some v => decide (v ≠ "default") && decide (v ≠ "hot")
      | none => false) = true
    · rw [if_pos c11]; exact Or.inl ⟨_, rfl⟩
    rw [if_neg c11]
    by_cases c12 : (!catalog.categories.any fun c =>
        c.id == trimStr input.categoryId) = true
    · rw [if_pos c12]; exact Or.inl ⟨_, rfl⟩
    rw [if_neg c12]
    refine Or.inr ⟨_, _, rfl, ?_, ?_, rfl, rfl⟩
    · exact congrArg _ (not_not.mp c10)
    · exact Nat.le_of_not_lt c3

/-! ### C5.  Validation errors precede any write -/

/-- C5: whenever `createCategory` or `createProduct` fails, it has
performed no write, so the persisted document is unchanged; the error is
a single message, and with several violated rules the first one in
validation order is reported (two concrete fail-fast instances:
`inputMulti` violates the category, name and URL rules at once and
reports only the category rule). -/
theorem mutation_error_no_write (nameRaw : String) (input : CreateProductInput)
    (catalog : CatalogData) (rnd : RandSupply) (now : String) (m m2 : String) :
    ((createCategory nameRaw catalog rnd now).1 = Except.error m →
      (createCategory nameRaw catalog rnd now).2 = []) ∧
    ((createProduct input catalog rnd now).1 = Except.error m2 →
      (createProduct input catalog rnd now).2 = []) ∧
    (createProduct inputMulti catGT rndFix "t3").1 =
      Except.error "Category is required." ∧
    (createCategory "   " catGT rndFix "t3").1 =
      Except.error "Category name is required." := by
  refine ⟨?_, ?_, rfl, rfl⟩
  · intro h
    rcases createCategory_main nameRaw catalog rnd now with ⟨m', hm⟩ | ⟨c, next, hok, -, -⟩
    · rw [hm]
    · rw [hok] at h
      exact absurd h (by simp)
  · intro h
    rcases createProduct_main input catalog rnd now with ⟨m', hm⟩ | ⟨p, next, hok, -, -, -, -⟩
    · rw [hm]
    · rw [hok] at h
      exact absurd h (by simp)

/-- C5 witness: a failing `createCategory` call performed no write. -/
theorem mutation_error_no_write_witness :
    (createCategory "   " catGT rndFix "t3").2 = [] :=
  (mutation_error_no_write "   " inputMulti catGT rndFix "t3"
      "Category name is required." "x").1 rfl

/-! ### C8.  `createProduct` validation boundary -/

set_option maxRecDepth 8192 in
/-- C8: `createProduct` fails whenever the trimmed image URL does not
parse or parses with a scheme other than https, and whenever the
normalized name exceeds 80 characters; it succeeds on an 80-character
name with an https URL, fails on a 201-character name, and fails on
`http://example.com/a.png`. -/
theorem createProduct_validation_boundary (input : CreateProductInput)
    (catalog : CatalogData) (rnd : RandSupply) (now : String) :
    (urlProtocol (trimStr input.imageUrl) = none →
      ∃ m, (createProduct input catalog rnd now).1 = Except.error m) ∧
    (∀ q, urlProtocol (trimStr input.imageUrl) = some q → q ≠ "https:" →
      ∃ m, (createProduct input catalog rnd now).1 = Except.error m) ∧
    ((normalizeName input.name).length > 80 →
      ∃ m, (createProduct input catalog rnd now).1 = Except.error m) ∧
    (createProduct inputOk80 catC1 rndFix "t9").1 = Except.ok prodOk80 ∧
    (createProduct { inputOk80 with name := name201 } catC1 rndFix "t9").1 =
      Except.error "Product name is too long (max 80 chars)." ∧
    (createProduct inputHttp catC1 rndFix "t9").1 =
      Except.error "Image URL must be https." := by
  refine ⟨?_, ?_, ?_, rfl, rfl, rfl⟩
  · intro hurl
    rcases createProduct_main input catalog rnd now with ⟨m, hm⟩ |
      ⟨p, next, hok, hhttps, -, -, -⟩
    · exact ⟨m, by rw [hm]⟩
    · rw [hurl] at hhttps
      exact absurd hhttps (by simp)
  · intro q hq hne
    rcases createProduct_main input catalog rnd now with ⟨m, hm⟩ |
      ⟨p, next, hok, hhttps, -, -, -⟩
    · exact ⟨m, by rw [hm]⟩
    · rw [hq] at hhttps
      exact absurd (Option.some.inj hhttps) hne
  · intro hlen
    rcases createProduct_main input catalog rnd now with ⟨m, hm⟩ |
      ⟨p, next, hok, -, hle, -, -⟩
    · exact ⟨m, by rw [hm]⟩
    · omega

/-- C8 witness: an unparseable image URL makes `createProduct` fail. -/
theorem createProduct_validation_boundary_witness :
    ∃ m, (createProduct { inputOk80 with imageUrl := "nope url" } catC1 rndFix
        "t9").1 = Except.error m :=
  (createProduct_validation_boundary { inputOk80 with imageUrl := "nope url" }
      catC1 rndFix "t9").1 (by decide)

/-! ### C3.  Id freshness and uniqueness -/

/-- C3 (counterexample): in the fallback branch taken when all ten
suffixed retries collide, the random UUID is returned without being
checked against the existing ids; if it happens to equal one, the new
category is created with an id that already exists. -/
theorem createCategory_uuid_collision_cex :
    (createCategory "X" catClash rndClash "t1").1 =
      Except.ok ⟨"x", "X", "t1"⟩ ∧
    "x" ∈ catClash.categories.map Category.id := by
  exact ⟨rfl, by decide⟩

/-- C3 (amended): every id returned by a successful `createCategory` is
distinct from all existing category ids, and every id returned by a
successful `createProduct` is distinct from all existing product ids, so
id-nodup is preserved — provided the random UUID drawn in the final
fallback branch differs from every existing id, which the code relies on
(UUID collision is astronomically unlikely) but does not check.  The
empty-slug UUID needs no such hypothesis: it is checked by `uniqueId`. -/
theorem create_id_fresh (nameRaw : String) (input : CreateProductInput)
    (catalog : CatalogData) (rnd : RandSupply) (now : String)
    (hcat : rnd.fallbackUuid ∉ catalog.categories.map Category.id)
    (hprod : rnd.fallbackUuid ∉ catalog.products.map Product.id)
    (hndc : (catalog.categories.map Category.id).Nodup)
    (hndp : (catalog.products.map Product.id).Nodup) :
    (∀ c rest, createCategory nameRaw catalog rnd now = (Except.ok c, rest) →
      c.id ∉ catalog.categories.map Category.id ∧
      ∀ next ∈ rest, (next.categories.map Category.id).Nodup) ∧
    (∀ p rest, createProduct input catalog rnd now = (Except.ok p, rest) →
      p.id ∉ catalog.products.map Product.id ∧
      ∀ next ∈ rest, (next.products.map Product.id).Nodup) := by
  constructor
  · intro c rest hok
    rcases createCategory_main nameRaw catalog rnd now with ⟨m, hm⟩ |
      ⟨c', next', hok', hid, hnext⟩
    · rw [hm] at hok
      exact absurd (congrArg Prod.fst hok) (by simp)
    · have heq := hok'.symm.trans hok
      rw [Prod.mk.injEq] at heq
      obtain ⟨hc, hr⟩ := heq
      obtain rfl := Except.ok.inj hc
      obtain rfl := hr
      have hfresh : c'.id ∉ catalog.categories.map Category.id := by
        rw [hid]
        exact uniqueId_not_mem _ _ rnd hcat
      refine ⟨hfresh, ?_⟩
      intro next hmem
      obtain rfl := List.mem_singleton.mp hmem
      rw [hnext, List.map_append]
      exact ((List.perm_append_singleton _ _).nodup_iff).mpr
        (List.nodup_cons.mpr ⟨hfresh, hndc⟩)
  · intro p rest hok
    rcases createProduct_main input catalog rnd now with ⟨m, hm⟩ |
      ⟨p', next', hok', -, -, hid, hnext⟩
    · rw [hm] at hok
      exact absurd (congrArg Prod.fst hok) (by simp)
    · have heq := hok'.symm.trans hok
      rw [Prod.mk.injEq] at heq
      obtain ⟨hc, hr⟩ := heq
      obtain rfl := Except.ok.inj hc
      obtain rfl := hr
      have hfresh : p'.id ∉ catalog.products.map Product.id := by
        rw [hid]
        exact uniqueId_not_mem _ _ rnd hprod
      refine ⟨hfresh, ?_⟩
      intro next hmem
      obtain rfl := List.mem_singleton.mp hmem
      rw [hnext, List.map_append]
      exact ((List.perm_append_singleton _ _).nodup_iff).mpr
        (List.nodup_cons.mpr ⟨hfresh, hndp⟩)

/-- C3 witness: the id generated for `"Oolong"` on `catGT` is fresh. -/
theorem create_id_fresh_witness :
    (⟨"oolong", "Oolong", "t1"⟩ : Category).id ∉ catGT.categories.map Category.id :=
  ((create_id_fresh "Oolong" inputOk80 catGT rndFix "t1" (by decide) (by decide)
      (by decide) (by decide)).1 ⟨"oolong", "Oolong", "t1"⟩ [catGTnext] rfl).1

/-! ### C9.  Public catalog query -/

/-- `charsLe` is total. -/
theorem charsLe_total : ∀ xs ys : List Char,
    charsLe xs ys = true ∨ charsLe ys xs = true := by
  intro xs
  induction xs with
  | nil => intro ys; left; rfl
  | cons a as ih =>
    intro ys
    cases ys with
    | nil => right; rfl
    | cons b bs =>
      by_cases h1 : a.toNat < b.toNat
      · left; simp [charsLe, h1]
      · by_cases h2 : b.toNat < a.toNat
        · right; simp [charsLe, h2]
        · rcases ih bs with h | h
          · left; simp [charsLe, h1, h2, h]
          · right; simp [charsLe, h1, h2, h]

/-- `charsLe` is transitive. -/
theorem charsLe_trans : ∀ xs ys zs : List Char, charsLe xs ys = true →
    charsLe ys zs = true → charsLe xs zs = true := by
  intro xs
  induction xs with
  | nil => intro ys zs _ _; rfl
  | cons a as ih =>
    intro ys zs hxy hyz
    cases ys with
    | nil => simp [charsLe] at hxy
    | cons b bs =>
      cases zs with
      | nil => simp [charsLe] at hyz
      | cons c cs =>
        simp only [charsLe] at hxy hyz ⊢
        split_ifs at hxy hyz ⊢ <;>
          first
            | rfl
            | omega
            | exact ih bs cs hxy hyz

instance : IsTotal Category catNameLe :=
  ⟨fun a b => charsLe_total a.name.data b.name.data⟩

instance : IsTrans Category catNameLe :=
  ⟨fun _ b _ hab hbc => charsLe_trans _ b.name.data _ hab hbc⟩

instance : IsTotal Product prodCreatedGe :=
  ⟨fun a b => charsLe_total b.createdAt.data a.createdAt.data⟩

instance : IsTrans Product prodCreatedGe :=
  ⟨fun _ b _ hab hbc => charsLe_trans _ b.createdAt.data _ hbc hab⟩

/-- C9: `getPublicCatalog` returns the stored categories (exactly, as a
permutation) sorted ascending by name, and exactly the stored products
whose `categoryId` matches an existing category, sorted by creation time
descending — so a product with a strictly sorting-after `createdAt`
appears strictly earlier — and it performs no write. -/
theorem getPublicCatalog_spec (catalog : CatalogData) (i j : Nat)
    (hi : i < ((getPublicCatalog catalog).1.2).length)
    (hj : j < ((getPublicCatalog catalog).1.2).length) :
    ((getPublicCatalog catalog).1.1).Perm catalog.categories ∧
    List.Sorted catNameLe ((getPublicCatalog catalog).1.1) ∧
    (∀ p, p ∈ (getPublicCatalog catalog).1.2 ↔
      p ∈ catalog.products ∧ p.categoryId ∈ catalog.categories.map Category.id) ∧
    List.Sorted prodCreatedGe ((getPublicCatalog catalog).1.2) ∧
    (strLe (((getPublicCatalog catalog).1.2).get ⟨j, hj⟩).createdAt
        (((getPublicCatalog catalog).1.2).get ⟨i, hi⟩).createdAt = false → j < i) ∧
    (getPublicCatalog catalog).2 = [] := by
  have hperm : ((getPublicCatalog catalog).1.1).Perm catalog.categories :=
    List.perm_insertionSort catNameLe catalog.categories
  have hsortp : List.Sorted prodCreatedGe ((getPublicCatalog catalog).1.2) :=
    List.sorted_insertionSort prodCreatedGe _
  refine ⟨hperm, List.sorted_insertionSort catNameLe _, ?_, hsortp, ?_, rfl⟩
  · intro p
    have hrw : (getPublicCatalog catalog).1.2 = List.insertionSort prodCreatedGe
        (catalog.products.filter (fun q => q.categoryId ∈
          (List.insertionSort catNameLe catalog.categories).map Category.id)) := rfl
    rw [hrw, List.mem_insertionSort, List.mem_filter]
    simp only [decide_eq_true_eq]
    exact and_congr_right fun _ =>
      ((List.perm_insertionSort catNameLe catalog.categories).map Category.id).mem_iff
  · intro hlt
    rcases Nat.lt_trichotomy j i with h | h | h
    · exact h
    · subst h
      rcases charsLe_total (((getPublicCatalog catalog).1.2).get ⟨j, hj⟩).createdAt.data
          (((getPublicCatalog catalog).1.2).get ⟨j, hj⟩).createdAt.data with h' | h' <;>
        exact absurd h' (by simp_all [strLe])
    · have := hsortp.rel_get_of_lt (show (⟨i, hi⟩ : Fin _) < ⟨j, hj⟩ from h)
      exact absurd this (by simp_all [prodCreatedGe])

/-- C9 witness: the query on `catSort` performs no write. -/
theorem getPublicCatalog_spec_witness :
    (getPublicCatalog catSort).2 = [] :=
  (getPublicCatalog_spec catSort 0 1 (by decide) (by decide)).2.2.2.2.2

/-! ### Base64url and payload codec lemmas -/

set_option maxRecDepth 4000 in
/-- Every sextet below 64 decodes back through the alphabet. -/
theorem b64Index_b64Char_all : ∀ n < 64, b64Index (b64Char n) = some n := by
  decide

/-- Convenience form of `b64Index_b64Char_all`. -/
theorem b64Index_b64Char {n : Nat} (h : n < 64) : b64Index (b64Char n) = some n :=
  b64Index_b64Char_all n h

set_option maxRecDepth 4000 in
/-- No base64url character is a dot. -/
theorem b64Char_ne_dot (n : Nat) : b64Char n ≠ '.' := by
  by_cases h : n < 64
  · have hall : ∀ m < 64, b64Char m ≠ '.' := by decide
    exact hall n h
  · have hlen : b64Alphabet.length ≤ n := by
      have h64 : b64Alphabet.length = 64 := by decide
      omega
    unfold b64Char
    rw [List.getD_eq_default _ _ hlen]
    decide

/-- The base64url encoder never emits a dot. -/
theorem b64Encode_ne_dot : ∀ bs : List Nat, ∀ c ∈ b64EncodeChunks bs, c ≠ '.'
  | [], c, hc => by simp [b64EncodeChunks] at hc
  | [b1], c, hc => by
    simp only [b64EncodeChunks, List.mem_cons, List.not_mem_nil, or_false] at hc
    rcases hc with rfl | rfl <;> exact b64Char_ne_dot _
  | [b1, b2], c, hc => by
    simp only [b64EncodeChunks, List.mem_cons, List.not_mem_nil, or_false] at hc
    rcases hc with rfl | rfl | rfl <;> exact b64Char_ne_dot _
  | b1 :: b2 :: b3 :: rest, c, hc => by
    simp only [b64EncodeChunks, List.mem_cons] at hc
    rcases hc with rfl | rfl | rfl | rfl | hc
    · exact b64Char_ne_dot _
    · exact b64Char_ne_dot _
    · exact b64Char_ne_dot _
    · exact b64Char_ne_dot _
    · exact b64Encode_ne_dot rest c hc

/-- Decoding inverts encoding on byte lists. -/
theorem b64_roundtrip : ∀ bs : List Nat, (∀ b ∈ bs, b < 256) →
    b64DecodeChunks (b64EncodeChunks bs) = some bs
  | [], _ => rfl
  | [b1], h => by
    have hb1 : b1 < 256 := h b1 (by simp)
    have h1 : b1 * 16 / 64 < 64 := by omega
    have h2 : b1 * 16 % 64 < 64 := by omega
    simp [b64EncodeChunks, b64DecodeChunks, b64Index_b64Char h1, b64Index_b64Char h2]
    omega
  | [b1, b2], h => by
    have hb1 : b1 < 256 := h b1 (by simp)
    have hb2 : b2 < 256 := h b2 (by simp)
    have h1 : (b1 * 1024 + b2 * 4) / 4096 < 64 := by omega
    have h2 : (b1 * 1024 + b2 * 4) / 64 % 64 < 64 := by omega
    have h3 : (b1 * 1024 + b2 * 4) % 64 < 64 := by omega
    simp [b64EncodeChunks, b64DecodeChunks, b64Index_b64Char h1, b64Index_b64Char h2,
      b64Index_b64Char h3]
    omega
  | b1 :: b2 :: b3 :: rest, h => by
    have hb1 : b1 < 256 := h b1 (by simp)
    have hb2 : b2 < 256 := h b2 (by simp)
    have hb3 : b3 < 256 := h b3 (by simp)
    have h1 : (b1 * 65536 + b2 * 256 + b3) / 262144 < 64 := by omega
    have h2 : (b1 * 65536 + b2 * 256 + b3) / 4096 % 64 < 64 := by omega
    have h3 : (b1 * 65536 + b2 * 256 + b3) / 64 % 64 < 64 := by omega
    have h4 : (b1 * 65536 + b2 * 256 + b3) % 64 < 64 := by omega
    have hrest := b64_roundtrip rest (fun b hb => h b (by simp [hb]))
    simp [b64EncodeChunks, b64DecodeChunks, b64Index_b64Char h1, b64Index_b64Char h2,
      b64Index_b64Char h3, b64Index_b64Char h4, hrest]
    refine ⟨?_, ?_, ?_⟩ <;> omega

/-- Digit characters are digits with the expected code. -/
theorem digitChar_facts : ∀ k < 10,
    (digitChar k).isDigit = true ∧ (digitChar k).toNat = 48 + k := by
  decide

/-- The renderer never returns `[]` unless it ran out of fuel with an
empty accumulator. -/
theorem natToCharsFuel_ne_nil : ∀ (fuel n : Nat) (acc : List Char),
    natToCharsFuel fuel n acc = [] → acc = [] ∧ fuel = 0 := by
  intro fuel
  induction fuel with
  | zero => intro n acc h; exact ⟨h, rfl⟩
  | succ fuel ih =>
    intro n acc h
    rw [natToCharsFuel] at h
    by_cases h10 : n < 10
    · simp [h10] at h
    · simp only [h10, if_false] at h
      obtain ⟨hacc, -⟩ := ih (n / 10) (digitChar (n % 10) :: acc) h
      exact absurd hacc (by simp)

/-- The rendered digits of `n` are nonempty. -/
theorem natToChars_ne_nil (n : Nat) : natToChars n ≠ [] := by
  intro h
  obtain ⟨-, hf⟩ := natToCharsFuel_ne_nil (n + 1) n [] h
  omega

/-- Accumulator-independence of the renderer. -/
theorem natToCharsFuel_append : ∀ (fuel n : Nat) (acc : List Char),
    natToCharsFuel fuel n acc = natToCharsFuel fuel n [] ++ acc := by
  intro fuel
  induction fuel with
  | zero => intro n acc; rfl
  | succ fuel ih =>
    intro n acc
    rw [natToCharsFuel, natToCharsFuel]
    by_cases h10 : n < 10
    · simp [h10]
    · simp only [h10, if_false]
      rw [ih (n / 10) (digitChar (n % 10) :: acc), ih (n / 10) [digitChar (n % 10)]]
      simp

/-- Every rendered character is a digit character. -/
theorem natToCharsFuel_chars : ∀ (fuel n : Nat) (acc : List Char) (c : Char),
    c ∈ natToCharsFuel fuel n acc → (∃ k, k < 10 ∧ c = digitChar k) ∨ c ∈ acc := by
  intro fuel
  induction fuel with
  | zero => intro n acc c hc; exact Or.inr hc
  | succ fuel ih =>
    intro n acc c hc
    rw [natToCharsFuel] at hc
    by_cases h10 : n < 10
    · simp only [h10, if_true, List.mem_cons] at hc
      rcases hc with rfl | hc
      · exact Or.inl ⟨n, h10, rfl⟩
      · exact Or.inr hc
    · simp only [h10, if_false] at hc
      rcases ih (n / 10) (digitChar (n % 10) :: acc) c hc with h | h
      · exact Or.inl h
      · rcases List.mem_cons.mp h with rfl | h
        · exact Or.inl ⟨n % 10, by omega, rfl⟩
        · exact Or.inr h

/-- Parsing distributes over append. -/
theorem parseNatAux_append : ∀ (xs ys : List Char) (a : Nat),
    parseNatAux (xs ++ ys) a =
      match parseNatAux xs a with
      | some m => parseNatAux ys m
      | none => none := by
  intro xs
  induction xs with
  | nil => intro ys a; rfl
  | cons c rest ih =>
    intro ys a
    simp only [List.cons_append, parseNatAux]
    by_cases hd : c.isDigit
    · simp only [hd, if_true]
      exact ih ys (a * 10 + (c.toNat - 48))
    · simp [hd]

/-- Parsing the rendered digits of `n` on top of accumulator `a` yields
`a * 10 ^ (number of digits) + n`. -/
theorem parse_natToCharsFuel : ∀ (fuel n : Nat), n < fuel → ∀ a : Nat,
    ∃ m, 0 < m ∧ parseNatAux (natToCharsFuel fuel n []) a = some (a * m + n) := by
  intro fuel
  induction fuel with
  | zero => intro n h; omega
  | succ fuel ih =>
    intro n hn a
    rw [natToCharsFuel]
    by_cases h10 : n < 10
    · refine ⟨10, by omega, ?_⟩
      obtain ⟨hdig, hcode⟩ := digitChar_facts n h10
      simp only [h10, if_true, parseNatAux, hdig, hcode]
      congr 1
      omega
    · simp only [h10, if_false]
      rw [natToCharsFuel_append]
      have hlt : n / 10 < fuel := by omega
      obtain ⟨m, hm, hp⟩ := ih (n / 10) hlt a
      rw [parseNatAux_append, hp]
      obtain ⟨hdig, hcode⟩ := digitChar_facts (n % 10) (by omega)
      refine ⟨m * 10, by omega, ?_⟩
      simp only [parseNatAux, hdig, if_true, hcode]
      congr 1
      have hassoc : a * (m * 10) = a * m * 10 := by ring
      omega

/-- Parsing inverts decimal rendering. -/
theorem parseNatDigits_natToChars (n : Nat) : parseNatDigits (natToChars n) = some n := by
  obtain ⟨m, -, hp⟩ := parse_natToCharsFuel (n + 1) n (by omega) 0
  unfold natToChars
  cases hcs : natToCharsFuel (n + 1) n [] with
  | nil => exact absurd hcs (natToChars_ne_nil n)
  | cons c rest =>
    rw [hcs] at hp
    simpa [parseNatDigits] using hp

/-- Every character of the JSON payload has a byte-sized code. -/
theorem payloadChars_lt256 (exp : Nat) : ∀ c ∈ payloadChars exp, c.toNat < 256 := by
  intro c hc
  rw [payloadChars] at hc
  rcases List.mem_append.mp hc with h | h
  · rcases List.mem_append.mp h with h' | h'
    · have hfix : ∀ x ∈ "\x7b\"exp\":".data, Char.toNat x < 256 := by decide
      exact hfix c h'
    · rcases natToCharsFuel_chars (exp + 1) exp [] c h' with ⟨k, hk, rfl⟩ | h''
      · obtain ⟨-, hcode⟩ := digitChar_facts k hk
        omega
      · simp at h''
  · obtain rfl := List.mem_singleton.mp h
    decide

/-- `Buffer.toString("utf8")` after `Buffer.from(_, "utf8")` round-trips
on characters. -/
theorem bytesToChars_map_toNat (cs : List Char) :
    bytesToChars (cs.map Char.toNat) = cs := by
  simp [bytesToChars, List.map_map, Function.comp_def, Char.ofNat_toNat]

/-- `dropLead` strips an exact leading copy. -/
theorem dropLead_append : ∀ p cs : List Char, dropLead p (p ++ cs) = some cs := by
  intro p
  induction p with
  | nil => intro cs; rfl
  | cons a p ih =>
    intro cs
    simp only [List.cons_append, dropLead, if_pos rfl]
    exact ih cs

/-- The payload parser inverts the payload renderer. -/
theorem parsePayload_payloadChars (exp : Nat) :
    parsePayload (payloadChars exp) = some exp := by
  simp [parsePayload, payloadChars, dropLead,
    List.getLast?_concat, List.dropLast_concat, parseNatDigits_natToChars]

/-- `decodePayload` inverts `encodePayload`. -/
theorem decodePayload_encodePayload (exp : Nat) :
    decodePayload (encodePayload exp) = some exp := by
  rw [decodePayload, encodePayload]
  rw [b64_roundtrip ((payloadChars exp).map Char.toNat) ?hb]
  · show parsePayload (bytesToChars ((payloadChars exp).map Char.toNat)) = some exp
    rw [bytesToChars_map_toNat]
    exact parsePayload_payloadChars exp
  case hb =>
    intro b hb
    obtain ⟨c, hc, rfl⟩ := List.mem_map.mp hb
    exact payloadChars_lt256 exp c hc

/-! ### Dot-splitting lemmas -/

/-- A dot-free list splits into itself. -/
theorem splitDot_no_dot : ∀ l : List Char, '.' ∉ l → splitDot l = [l] := by
  intro l
  induction l with
  | nil => intro h; rfl
  | cons c rest ih =>
    intro h
    have hc : c ≠ '.' := fun hcc => h (by simp [hcc])
    have hrest : '.' ∉ rest := fun hcc => h (by simp [hcc])
    rw [splitDot, if_neg hc, ih hrest]

/-- Splitting `data ++ "." ++ sig` with dot-free halves gives exactly the
two parts. -/
theorem splitDot_append : ∀ xs ys : List Char, '.' ∉ xs → '.' ∉ ys →
    splitDot (xs ++ '.' :: ys) = [xs, ys] := by
  intro xs
  induction xs with
  | nil =>
    intro ys _ hy
    rw [List.nil_append, splitDot, if_pos rfl, splitDot_no_dot ys hy]
  | cons c rest ih =>
    intro ys hx hy
    have hc : c ≠ '.' := fun hcc => hx (by simp [hcc])
    have hrest : '.' ∉ rest := fun hcc => hx (by simp [hcc])
    rw [List.cons_append, splitDot, if_neg hc, ih ys hrest hy]

/-! ### C4 and C10.  Session authentication -/

/-- A correctly signed cookie value authenticates exactly while the
clock is strictly before its expiry. -/
theorem isAuthed_signedCookie (env : AuthEnv) (exp t : Nat)
    (hbytes : ∀ b ∈ env.hmac env.secret (encodePayload exp), b < 256) :
    isBackofficeAuthed env (some (signedCookieValue env exp)) t =
      decide (t < exp) := by
  have hd : '.' ∉ encodePayload exp :=
    fun hc => b64Encode_ne_dot _ '.' hc rfl
  have hs : '.' ∉ b64EncodeChunks (env.hmac env.secret (encodePayload exp)) :=
    fun hc => b64Encode_ne_dot _ '.' hc rfl
  have hsplit := splitDot_append _ _ hd hs
  have hdec := b64_roundtrip (env.hmac env.secret (encodePayload exp)) hbytes
  have hpay := decodePayload_encodePayload exp
  have hemp : (encodePayload exp ++
      '.' :: b64EncodeChunks (env.hmac env.secret (encodePayload exp))).isEmpty = false := by
    cases henc : encodePayload exp <;> rfl
  rw [signedCookieValue, isBackofficeAuthed]
  simp only [hemp, Bool.false_eq_true, if_false, hsplit, hdec, hpay]
  by_cases h : exp ≤ t
  · simp [h]
  · simp [h]
    omega

/-- C10: a cookie issued by `setBackofficeSessionCookie` with the same
secret authenticates at every instant strictly before its expiry
`now + 30 days`, provided the HMAC digests are byte lists. -/
theorem issue_verify_roundtrip (env : AuthEnv) (nowIssue t : Nat)
    (hbytes : ∀ k d b, b ∈ env.hmac k d → b < 256)
    (h : t < nowIssue + SESSION_TTL_MS) :
    isBackofficeAuthed env (some (setBackofficeSessionCookie env nowIssue)) t = true := by
  rw [setBackofficeSessionCookie,
    isAuthed_signedCookie env (nowIssue + SESSION_TTL_MS) t (fun b hb => hbytes _ _ b hb)]
  simpa using h

/-- C10 witness: the round-trip at issue time 0, checked at time 0. -/
theorem issue_verify_roundtrip_witness :
    isBackofficeAuthed envFix (some (setBackofficeSessionCookie envFix 0)) 0 = true :=
  issue_verify_roundtrip envFix 0 0
    (by intro k d b hb; simp [envFix] at hb; omega) (by decide)

/-- C4: `isBackofficeAuthed` returns `true` exactly when the cookie is
present and its value splits on `.` into exactly two parts such that the
signature part base64url-decodes to precisely the recomputed HMAC of the
data part, the data part decodes to a payload with a numeric `exp`, and
`exp` is strictly after the current time; in every other case it returns
`false` (it is a total function, never an exception).  Moreover a
properly signed token with `exp = now - 1` is rejected, and a token
whose data part was tampered with (so that its HMAC differs from the
recomputed one, as any byte flip does for HMAC-SHA256) is rejected
regardless of expiry. -/
theorem isBackofficeAuthed_spec (env : AuthEnv)
    (hbytes : ∀ k d b, b ∈ env.hmac k d → b < 256) :
    (∀ cookie nowMs, isBackofficeAuthed env cookie nowMs = true ↔
      (∃ value data sigB64 exp, cookie = some value ∧
        splitDot value = [data, sigB64] ∧
        b64DecodeChunks sigB64 = some (env.hmac env.secret data) ∧
        decodePayload data = some exp ∧ nowMs < exp)) ∧
    (∀ nowMs, isBackofficeAuthed env
        (some (signedCookieValue env (nowMs - 1))) nowMs = false) ∧
    (∀ dataT exp nowMs, '.' ∉ dataT →
      env.hmac env.secret dataT ≠ env.hmac env.secret (encodePayload exp) →
      isBackofficeAuthed env
        (some (dataT ++ '.' ::
          b64EncodeChunks (env.hmac env.secret (encodePayload exp)))) nowMs = false) := by
  refine ⟨?_, ?_, ?_⟩
  · intro cookie nowMs
    constructor
    · intro h
      cases cookie with
      | none => simp [isBackofficeAuthed] at h
      | some value =>
        by_cases hemp : value.isEmpty
        · simp [isBackofficeAuthed, hemp] at h
        · cases hsp : splitDot value with
          | nil => simp [isBackofficeAuthed, hemp, hsp] at h
          | cons data rest =>
            cases rest with
            | nil => simp [isBackofficeAuthed, hemp, hsp] at h
            | cons sigB64 rest2 =>
              cases rest2 with
              | cons x xs => simp [isBackofficeAuthed, hemp, hsp] at h
              | nil =>
                cases hdec : b64DecodeChunks sigB64 with
                | none => simp [isBackofficeAuthed, hemp, hsp, hdec] at h
                | some actualSig =>
                  by_cases hsigeq : actualSig = env.hmac env.secret data
                  · cases hpay : decodePayload data with
                    | none =>
                      simp [isBackofficeAuthed, hemp, hsp, hdec, hsigeq, hpay] at h
                    | some exp =>
                      by_cases hexp : exp ≤ nowMs
                      · simp [isBackofficeAuthed, hemp, hsp, hdec, hsigeq, hpay,
                          hexp] at h
                      · exact ⟨value, data, sigB64, exp, rfl, hsp,
                          by rw [hdec, hsigeq], hpay, by omega⟩
                  · simp [isBackofficeAuthed, hemp, hsp, hdec, hsigeq] at h
    · rintro ⟨value, data, sigB64, exp, rfl, hsp, hdec, hpay, hlt⟩
      have hemp : value.isEmpty = false := by
        cases value with
        | nil => simp [splitDot] at hsp
        | cons c cs => rfl
      rw [isBackofficeAuthed]
      simp only [hemp, Bool.false_eq_true, if_false, hsp, hdec, hpay]
      simp
      omega
  · intro nowMs
    rw [isAuthed_signedCookie env (nowMs - 1) nowMs (fun b hb => hbytes _ _ b hb)]
    simp
  · intro dataT exp nowMs hdot hne
    have hs : '.' ∉ b64EncodeChunks (env.hmac env.secret (encodePayload exp)) :=
      fun hc => b64Encode_ne_dot _ '.' hc rfl
    have hsplit := splitDot_append dataT _ hdot hs
    have hdec := b64_roundtrip (env.hmac env.secret (encodePayload exp))
      (fun b hb => hbytes _ _ b hb)
    have hemp : (dataT ++
        '.' :: b64EncodeChunks (env.hmac env.secret (encodePayload exp))).isEmpty =
        false := by
      cases dataT <;> rfl
    rw [isBackofficeAuthed]
    simp only [hemp, Bool.false_eq_true, if_false, hsplit, hdec]
    simp [Ne.symm hne]

/-- C4 witness: the properly signed but just-expired token is rejected. -/
theorem isBackofficeAuthed_spec_witness :
    isBackofficeAuthed envFix (some (signedCookieValue envFix (5 - 1))) 5 = false :=
  (isBackofficeAuthed_spec envFix
    (by intro k d b hb; simp [envFix] at hb; omega)).2.1 5
